import Mathlib

/-!
Shallow embedding of the HelioRoute core (great-circle route segmentation,
solar sampling, sunrise/sunset event detection, and the seat-side classifier)
as found in `handleSubmit` / `createFlightPath` of the application source.
Numbers are modelled as rationals; the external collaborators (the initial
bearing computation from `sunUtils` and the SunCalc ephemeris) are passed in
as function parameters, mirroring how the classifier code invokes them.
-/

namespace HelioRoute

/-- The external initial-bearing capability: lat1 lon1 lat2 lon2 → degrees. -/
abbrev Bearing := ℚ → ℚ → ℚ → ℚ → ℚ

/-- The external ephemeris sunrise/sunset-time capability:
time lat lon → optional instant (none models an invalid Date). -/
abbrev EphemTimes := ℚ → ℚ → ℚ → Option ℚ

/-- JavaScript-style truncation toward zero, as used by the `%` operator. -/
def jsTrunc (q : ℚ) : ℤ := if 0 ≤ q then ⌊q⌋ else ⌈q⌉

/-- JavaScript remainder `x % m`: x - m * trunc(x / m). -/
def jsMod (x m : ℚ) : ℚ := x - m * jsTrunc (x / m)

/-- `(p.azimuth - heading + 360) % 360` from the classifier loop. -/
def relAngleOf (azimuth heading : ℚ) : ℚ := jsMod (azimuth - heading + 360) 360

/-- One sample along the route: position, timestamp (ms), solar altitude and
azimuth, as consumed by the classifier and event detector. -/
structure SunPoint where
  lat : ℚ
  lon : ℚ
  time : ℚ
  altitude : ℚ
  azimuth : ℚ
deriving DecidableEq, Repr

/-- The aggregation state of the classifier loop. -/
structure SideTally where
  leftCount : ℕ
  rightCount : ℕ
  aheadCount : ℕ
  behindCount : ℕ
  sunVisible : Bool
  sunIntervals : ℕ
deriving DecidableEq, Repr

/-- All-zero initial tally. -/
def initTally : SideTally := ⟨0, 0, 0, 0, false, 0⟩

/-- The quadrant if-chain of the tally loop, incrementing one counter:
`if (relAngle > 45 && relAngle <= 135) rightCount++; else if ...`. -/
def bucketStep (relAngle : ℚ) (t : SideTally) : SideTally :=
  if 45 < relAngle ∧ relAngle ≤ 135 then { t with rightCount := t.rightCount + 1 }
  else if 225 < relAngle ∧ relAngle ≤ 315 then { t with leftCount := t.leftCount + 1 }
  else if 315 < relAngle ∨ relAngle ≤ 45 then { t with aheadCount := t.aheadCount + 1 }
  else if 135 < relAngle ∧ relAngle ≤ 225 then { t with behindCount := t.behindCount + 1 }
  else t

/-- `sunVisible = true; sunIntervals++`, executed before the quadrant chain. -/
def markVisible (t : SideTally) : SideTally :=
  { t with sunVisible := true, sunIntervals := t.sunIntervals + 1 }

/-- One iteration of the tally loop over the pair (p1, p2). -/
def classifyStep (b : Bearing) (p1 p2 : SunPoint) (t : SideTally) : SideTally :=
  let heading := b p1.lat p1.lon p2.lat p2.lon
  let relAngle := relAngleOf p1.azimuth heading
  if p1.altitude < 0 then t
  else bucketStep relAngle (markVisible t)

/-- The tally loop `for (i = 0; i < sunPoints.length - 1; i++)`. -/
def classifyPairs (b : Bearing) : List SunPoint → SideTally → SideTally
  | p1 :: p2 :: rest, t => classifyPairs b (p2 :: rest) (classifyStep b p1 p2 t)
  | _, t => t

/-- The full classifier: run the tally loop from the zero tally. -/
def classify (b : Bearing) (pts : List SunPoint) : SideTally :=
  classifyPairs b pts initTally

/-- `const totalIntervals = sunPoints.length - 1`. -/
def totalIntervals (pts : List SunPoint) : ℤ := (pts.length : ℤ) - 1

/-- The seat recommendation computed from the tally. -/
def seatOf (t : SideTally) : String :=
  if t.sunVisible = false then "Neither (Sun not visible during flight)"
  else if t.rightCount < t.leftCount then "Left"
  else if t.leftCount < t.rightCount then "Right"
  else if 0 < t.leftCount then "Left"
  else "Neither (Sun not visible during flight)"

/-- The position-label if-chain computed per loop index (same bounds as
`bucketStep`, producing the label string; `""` is the untouched initial value). -/
def bucketOf (relAngle : ℚ) : String :=
  if 45 < relAngle ∧ relAngle ≤ 135 then "Right"
  else if 225 < relAngle ∧ relAngle ≤ 315 then "Left"
  else if 315 < relAngle ∨ relAngle ≤ 45 then "Ahead"
  else if 135 < relAngle ∧ relAngle ≤ 225 then "Behind"
  else ""

/-- Kind of a detected sun event. -/
inductive EventKind where
  | sunrise : EventKind
  | sunset : EventKind
deriving DecidableEq, Repr

/-- A detected sunrise/sunset crossing, as pushed onto `events`. -/
structure SunEvent where
  kind : EventKind
  time : ℚ
  lat : ℚ
  lon : ℚ
  azimuth : ℚ
  position : String
deriving DecidableEq, Repr

/-- Linear zero-crossing interpolation for a sunrise:
`frac = -prevAlt / (p.altitude - prevAlt)`. -/
def linRise (p0 p1 : SunPoint) : ℚ :=
  p0.time + (-p0.altitude / (p1.altitude - p0.altitude)) * (p1.time - p0.time)

/-- Linear zero-crossing interpolation for a sunset:
`frac = prevAlt / (prevAlt - p.altitude)`. -/
def linSet (p0 p1 : SunPoint) : ℚ :=
  p0.time + (p0.altitude / (p0.altitude - p1.altitude)) * (p1.time - p0.time)

/-- Sunrise crossing-time policy: prefer the ephemeris time at the later
sample's location when it lies inside the bracket, else interpolate. -/
def riseTime (sr : EphemTimes) (p0 p1 : SunPoint) : ℚ :=
  match sr p1.time p1.lat p1.lon with
  | some e => if p0.time ≤ e ∧ e ≤ p1.time then e else linRise p0 p1
  | none => linRise p0 p1

/-- Sunset crossing-time policy, analogous to `riseTime`. -/
def setTime (ss : EphemTimes) (p0 p1 : SunPoint) : ℚ :=
  match ss p1.time p1.lat p1.lon with
  | some e => if p0.time ≤ e ∧ e ≤ p1.time then e else linSet p0 p1
  | none => linSet p0 p1

/-- The heading computed at loop index of the later sample p1:
toward the next sample when one exists, else from the previous sample p0. -/
def eventHeading (b : Bearing) (p0 p1 : SunPoint) (rest : List SunPoint) : ℚ :=
  match rest with
  | p2 :: _ => b p1.lat p1.lon p2.lat p2.lon
  | [] => b p0.lat p0.lon p1.lat p1.lon

/-- The events pushed while visiting the later sample p1 of the pair (p0, p1);
`rest` holds the samples after p1 (used only for the heading). -/
def pairEvents (b : Bearing) (sr ss : EphemTimes) (p0 p1 : SunPoint)
    (rest : List SunPoint) : List SunEvent :=
  let position := bucketOf (relAngleOf p1.azimuth (eventHeading b p0 p1 rest))
  (if p0.altitude < 0 ∧ 0 ≤ p1.altitude then
    [{ kind := EventKind.sunrise, time := riseTime sr p0 p1, lat := p1.lat,
       lon := p1.lon, azimuth := p1.azimuth, position := position }]
   else [])
  ++ (if 0 ≤ p0.altitude ∧ p1.altitude < 0 then
    [{ kind := EventKind.sunset, time := setTime ss p0 p1, lat := p1.lat,
       lon := p1.lon, azimuth := p1.azimuth, position := position }]
   else [])

/-- The event-detection loop, carrying `prevAlt`'s sample (none at i = 0). -/
def detectAux (b : Bearing) (sr ss : EphemTimes) :
    Option SunPoint → List SunPoint → List SunEvent
  | _, [] => []
  | none, p :: rest => detectAux b sr ss (some p) rest
  | some p0, p :: rest => pairEvents b sr ss p0 p rest ++ detectAux b sr ss (some p) rest

/-- The full event detector over the sample sequence. -/
def detectEvents (b : Bearing) (sr ss : EphemTimes) (pts : List SunPoint) :
    List SunEvent :=
  detectAux b sr ss none pts

/-- The date-line segmentation loop of `createFlightPath`: points are
(lat, lon) pairs; a new segment starts when |Δlon| > 180. -/
def segmentLoop : List (ℚ × ℚ) → List (List (ℚ × ℚ)) → List (ℚ × ℚ) →
    List (List (ℚ × ℚ))
  | [], segs, cur => if cur = [] then segs else segs ++ [cur]
  | p :: rest, segs, cur =>
    match cur.getLast? with
    | none => segmentLoop rest segs [p]
    | some prev =>
      if 180 < |p.2 - prev.2| then segmentLoop rest (segs ++ [cur]) [p]
      else segmentLoop rest segs (cur ++ [p])

/-- `segmentRoute`: split an ordered point sequence at date-line crossings. -/
def segmentRoute (pts : List (ℚ × ℚ)) : List (List (ℚ × ℚ)) :=
  segmentLoop pts [] []

/-- Adjacent segments are separated by a longitude jump exceeding 180°. -/
def Gap (s t : List (ℚ × ℚ)) : Prop :=
  ∀ a ∈ s.getLast?, ∀ b ∈ t.head?, 180 < |b.2 - a.2|

/-- A route sample as produced by the solar sampler: fraction along the
route, interpolated position, and timestamp. -/
structure RouteSample where
  fraction : ℚ
  lat : ℚ
  lon : ℚ
  time : ℚ
deriving DecidableEq, Repr

/-- Modelled from the spec: the sample index bound n =
ceil(durationHours·60 / intervalMinutes) of §4.2's `sampleRoute`
(`interpolateSunAlongRoute` lives in `sunUtils`, which is not part of the
available source). -/
def sampleCount (durationHours intervalMinutes : ℚ) : ℕ :=
  (⌈durationHours * 60 / intervalMinutes⌉).toNat

/-- Modelled from the spec: the fraction of sample i of §4.2's `sampleRoute`,
min(i·intervalMinutes / (durationHours·60), 1). -/
def sampleFraction (durationHours intervalMinutes : ℚ) (i : ℕ) : ℚ :=
  min ((i : ℚ) * intervalMinutes / (durationHours * 60)) 1

/-- Modelled from the spec: §4.2's `sampleRoute` / `interpolateSunAlongRoute`
(absent from the available source): for i = 0..n the sample at
fraction = min(i·intervalMinutes/(durationHours·60), 1), position the
great-circle point at that fraction (here the abstract parameter `gc`), and
timestamp = departureUTC + fraction·durationHours. -/
def sampleRoute (gc : ℚ → ℚ × ℚ) (departureUTC durationHours intervalMinutes : ℚ) :
    List RouteSample :=
  (List.range (sampleCount durationHours intervalMinutes + 1)).map fun (i : ℕ) =>
    { fraction := sampleFraction durationHours intervalMinutes i,
      lat := (gc (sampleFraction durationHours intervalMinutes i)).1,
      lon := (gc (sampleFraction durationHours intervalMinutes i)).2,
      time := departureUTC + sampleFraction durationHours intervalMinutes i * durationHours }

/-- Transcribed from the spec's words (§4.4): the recommendation policy
phrased on `sunIntervals` instead of the `sunVisible` flag. -/
def seatSpec (t : SideTally) : String :=
  if t.sunIntervals = 0 then "Neither (Sun not visible during flight)"
  else if t.rightCount < t.leftCount then "Left"
  else if t.leftCount < t.rightCount then "Right"
  else if 0 < t.leftCount then "Left"
  else "Neither (Sun not visible during flight)"

/-- Transcribed from the spec's words (§4.4): the quadrant rule with fixed
90°-wide buckets, boundaries inclusive on the upper edge, for angles in
[0, 360): (45,135] → Right; (135,225] → Behind; (225,315] → Left;
the rest, (315,360) ∪ [0,45] → Ahead. -/
def quadrantSpec (a : ℚ) : String :=
  if 45 < a ∧ a ≤ 135 then "Right"
  else if 135 < a ∧ a ≤ 225 then "Behind"
  else if 225 < a ∧ a ≤ 315 then "Left"
  else "Ahead"

/-- Add one interval to the counter named by the quadrant label. -/
def bucketAdd (q : String) (t : SideTally) : SideTally :=
  if q = "Right" then { t with rightCount := t.rightCount + 1 }
  else if q = "Left" then { t with leftCount := t.leftCount + 1 }
  else if q = "Ahead" then { t with aheadCount := t.aheadCount + 1 }
  else if q = "Behind" then { t with behindCount := t.behindCount + 1 }
  else t

/-- Transcribed from the spec's words (§4.3): the kind sequence the event
detector must emit, pair by pair. -/
def specKinds : List SunPoint → List EventKind
  | p0 :: p1 :: rest =>
    (if p0.altitude < 0 ∧ 0 ≤ p1.altitude then [EventKind.sunrise]
     else if 0 ≤ p0.altitude ∧ p1.altitude < 0 then [EventKind.sunset]
     else [])
    ++ specKinds (p1 :: rest)
  | _ => []

/-! ## Basic lemmas about the classifier loop -/

theorem classifyPairs_nil (b : Bearing) (t : SideTally) : classifyPairs b [] t = t := rfl

theorem classifyPairs_single (b : Bearing) (p : SunPoint) (t : SideTally) :
    classifyPairs b [p] t = t := rfl

theorem classifyPairs_cons (b : Bearing) (p1 p2 : SunPoint) (rest : List SunPoint)
    (t : SideTally) :
    classifyPairs b (p1 :: p2 :: rest) t
      = classifyPairs b (p2 :: rest) (classifyStep b p1 p2 t) := rfl

theorem bucketStep_sunVisible (a : ℚ) (t : SideTally) :
    (bucketStep a t).sunVisible = t.sunVisible := by
  unfold bucketStep; split_ifs <;> rfl

theorem bucketStep_sunIntervals (a : ℚ) (t : SideTally) :
    (bucketStep a t).sunIntervals = t.sunIntervals := by
  unfold bucketStep; split_ifs <;> rfl

theorem bucketStep_sum (a : ℚ) (t : SideTally) :
    (bucketStep a t).leftCount + (bucketStep a t).rightCount
      + (bucketStep a t).aheadCount + (bucketStep a t).behindCount
    = t.leftCount + t.rightCount + t.aheadCount + t.behindCount + 1 := by
  unfold bucketStep
  split_ifs with h1 h2 h3 h4
  · simp; omega
  · simp; omega
  · simp; omega
  · simp; omega
  · exfalso
    push_neg at h1 h2 h3 h4
    have ha : 45 < a := h3.2
    have hb : 135 < a := h1 ha
    have hc : 225 < a := h4 hb
    have hd : 315 < a := h2 hc
    linarith [h3.1]

theorem classifyStep_of_neg (b : Bearing) (p1 p2 : SunPoint) (t : SideTally)
    (h : p1.altitude < 0) : classifyStep b p1 p2 t = t := by
  unfold classifyStep
  simp [h]

theorem classifyStep_of_nonneg (b : Bearing) (p1 p2 : SunPoint) (t : SideTally)
    (h : 0 ≤ p1.altitude) :
    classifyStep b p1 p2 t
      = bucketStep (relAngleOf p1.azimuth (b p1.lat p1.lon p2.lat p2.lon))
          (markVisible t) := by
  unfold classifyStep
  simp [not_lt.mpr h]

theorem classifyPairs_visible_iff (b : Bearing) :
    ∀ (pts : List SunPoint) (t : SideTally),
      (t.sunVisible = true ↔ 0 < t.sunIntervals) →
      ((classifyPairs b pts t).sunVisible = true ↔ 0 < (classifyPairs b pts t).sunIntervals)
  | [], t, h => h
  | [_], t, h => h
  | p1 :: p2 :: rest, t, h => by
    rw [classifyPairs_cons]
    refine classifyPairs_visible_iff b (p2 :: rest) _ ?_
    by_cases hneg : p1.altitude < 0
    · rw [classifyStep_of_neg b p1 p2 t hneg]; exact h
    · rw [classifyStep_of_nonneg b p1 p2 t (not_lt.mp hneg)]
      rw [bucketStep_sunVisible, bucketStep_sunIntervals]
      simp [markVisible]

theorem markVisible_leftCount (t : SideTally) : (markVisible t).leftCount = t.leftCount := rfl

theorem markVisible_rightCount (t : SideTally) : (markVisible t).rightCount = t.rightCount := rfl

theorem markVisible_aheadCount (t : SideTally) : (markVisible t).aheadCount = t.aheadCount := rfl

theorem markVisible_behindCount (t : SideTally) : (markVisible t).behindCount = t.behindCount := rfl

theorem markVisible_sunIntervals (t : SideTally) :
    (markVisible t).sunIntervals = t.sunIntervals + 1 := rfl

theorem classifyPairs_counts (b : Bearing) :
    ∀ (pts : List SunPoint) (t : SideTally),
      (classifyPairs b pts t).leftCount + (classifyPairs b pts t).rightCount
        + (classifyPairs b pts t).aheadCount + (classifyPairs b pts t).behindCount
        + t.sunIntervals
      = (classifyPairs b pts t).sunIntervals
        + (t.leftCount + t.rightCount + t.aheadCount + t.behindCount)
  | [], t => by rw [classifyPairs_nil]; omega
  | [_], t => by rw [classifyPairs_single]; omega
  | p1 :: p2 :: rest, t => by
    rw [classifyPairs_cons]
    by_cases hneg : p1.altitude < 0
    · rw [classifyStep_of_neg b p1 p2 t hneg]
      exact classifyPairs_counts b (p2 :: rest) t
    · rw [classifyStep_of_nonneg b p1 p2 t (not_lt.mp hneg)]
      have ih := classifyPairs_counts b (p2 :: rest)
        (bucketStep (relAngleOf p1.azimuth (b p1.lat p1.lon p2.lat p2.lon)) (markVisible t))
      have hs := bucketStep_sum (relAngleOf p1.azimuth (b p1.lat p1.lon p2.lat p2.lon))
        (markVisible t)
      have hi := bucketStep_sunIntervals
        (relAngleOf p1.azimuth (b p1.lat p1.lon p2.lat p2.lon)) (markVisible t)
      rw [markVisible_leftCount, markVisible_rightCount, markVisible_aheadCount,
        markVisible_behindCount] at hs
      rw [markVisible_sunIntervals] at hi
      omega

theorem classifyPairs_sunIntervals (b : Bearing) :
    ∀ (pts : List SunPoint) (t : SideTally),
      (classifyPairs b pts t).sunIntervals
        = t.sunIntervals + ((pts.zip pts.tail).countP fun q => decide (0 ≤ q.1.altitude))
  | [], t => by rw [classifyPairs_nil]; simp
  | [_], t => by rw [classifyPairs_single]; simp
  | p1 :: p2 :: rest, t => by
    rw [classifyPairs_cons]
    have hzip : ((p1 :: p2 :: rest).zip (p1 :: p2 :: rest).tail)
        = (p1, p2) :: ((p2 :: rest).zip (p2 :: rest).tail) := rfl
    rw [hzip, List.countP_cons]
    by_cases hneg : p1.altitude < 0
    · rw [classifyStep_of_neg b p1 p2 t hneg]
      rw [classifyPairs_sunIntervals b (p2 :: rest) t]
      simp [not_le.mpr hneg]
    · rw [classifyStep_of_nonneg b p1 p2 t (not_lt.mp hneg)]
      rw [classifyPairs_sunIntervals b (p2 :: rest)
        (bucketStep (relAngleOf p1.azimuth (b p1.lat p1.lon p2.lat p2.lon)) (markVisible t))]
      rw [bucketStep_sunIntervals, markVisible_sunIntervals]
      simp [not_lt.mp hneg]
      omega

/-! ## Claim theorems: classifier and recommendation -/

/-- Claim C1: for every sample sequence, the seat recommendation follows the
spec's policy exactly — `"Neither"` when no interval has the sun visible,
otherwise strictly-more-left → Left, strictly-more-right → Right, and on a
tie Left when leftCount > 0, else the Neither outcome (`seatSpec` transcribes
that policy on `sunIntervals`; the code tests its `sunVisible` flag instead,
and the two agree on every reachable tally). -/
theorem c1_recommendation_policy (b : Bearing) (pts : List SunPoint) :
    seatOf (classify b pts) = seatSpec (classify b pts) := by
  have h := classifyPairs_visible_iff b pts initTally (by simp [initTally])
  unfold classify at h ⊢
  set t := classifyPairs b pts initTally with ht
  unfold seatOf seatSpec
  by_cases hv : t.sunVisible = true
  · have h0 : ¬ t.sunIntervals = 0 := by
      have := h.mp hv
      omega
    simp [hv, h0]
  · have hf : t.sunVisible = false := by
      revert hv; cases t.sunVisible <;> simp
    have h0 : t.sunIntervals = 0 := by
      by_contra hne
      rw [h.mpr (Nat.pos_of_ne_zero hne)] at hf
      cases hf
    simp [hf, h0]

/-- Claim C10: every interval whose starting altitude is nonnegative lands in
exactly one quadrant bucket, so after classification
leftCount + rightCount + aheadCount + behindCount = visibleIntervals. -/
theorem c10_partition_invariant (b : Bearing) (pts : List SunPoint) :
    (classify b pts).leftCount + (classify b pts).rightCount
      + (classify b pts).aheadCount + (classify b pts).behindCount
    = (classify b pts).sunIntervals := by
  have h := classifyPairs_counts b pts initTally
  have h1 : initTally.leftCount = 0 := rfl
  have h2 : initTally.rightCount = 0 := rfl
  have h3 : initTally.aheadCount = 0 := rfl
  have h4 : initTally.behindCount = 0 := rfl
  have h5 : initTally.sunIntervals = 0 := rfl
  rw [h1, h2, h3, h4, h5] at h
  unfold classify
  omega

/-- Claim C7: after classification, `sunIntervals` (visibleIntervals) counts
exactly the consecutive pairs whose starting altitude is ≥ 0, `totalIntervals`
is the sample count minus one, and an interval with negative starting altitude
leaves the tally untouched (contributes to no quadrant counter). -/
theorem c7_interval_counting (b : Bearing) (pts : List SunPoint) :
    (classify b pts).sunIntervals
        = ((pts.zip pts.tail).countP fun q => decide (0 ≤ q.1.altitude))
    ∧ totalIntervals pts = (pts.length : ℤ) - 1
    ∧ (∀ (p1 p2 : SunPoint) (t : SideTally), p1.altitude < 0 →
        classifyStep b p1 p2 t = t) := by
  refine ⟨?_, rfl, fun p1 p2 t h => classifyStep_of_neg b p1 p2 t h⟩
  have h := classifyPairs_sunIntervals b pts initTally
  simpa [classify, initTally] using h

/-- Witness for C7 at a concrete input: a 3-sample sequence with one visible
and one dark interval, and a dark interval leaving the tally unchanged. -/
theorem c7_interval_counting_witness :
    ((-1 : ℚ) < 0)
    ∧ classifyStep (fun _ _ _ _ => 0) ⟨0, 0, 0, -1, 0⟩ ⟨0, 0, 1, 5, 0⟩ initTally
        = initTally := by
  refine ⟨by norm_num, ?_⟩
  exact (c7_interval_counting (fun _ _ _ _ => 0) []).2.2
    ⟨0, 0, 0, -1, 0⟩ ⟨0, 0, 1, 5, 0⟩ initTally (by norm_num)

/-! ## Quadrant bucketing -/

theorem jsMod_bounds (x : ℚ) (hx : 0 ≤ x) : 0 ≤ jsMod x 360 ∧ jsMod x 360 < 360 := by
  unfold jsMod jsTrunc
  have hx' : 0 ≤ x / 360 := by positivity
  rw [if_pos hx']
  have h1 : (⌊x / 360⌋ : ℚ) ≤ x / 360 := Int.floor_le _
  have h2 : x / 360 < ⌊x / 360⌋ + 1 := Int.lt_floor_add_one _
  have e : 360 * (x / 360) = x := by ring
  constructor <;> nlinarith

/-- Claim C2: for a pair whose starting altitude is ≥ 0, with azimuth and
heading in [0,360), the classifier computes relativeAngle =
(azimuth − heading + 360) mod 360 with heading = bearing(position[i],
position[i+1]), the result lies in [0,360), and the interval is bucketed per
the spec's upper-edge-inclusive 90° quadrants (`quadrantSpec`), marking the
interval visible. -/
theorem c2_quadrant_rule (b : Bearing) (p1 p2 : SunPoint) (t : SideTally)
    (halt : 0 ≤ p1.altitude)
    (ha0 : 0 ≤ p1.azimuth) (_ha1 : p1.azimuth < 360)
    (_hh0 : 0 ≤ b p1.lat p1.lon p2.lat p2.lon)
    (hh1 : b p1.lat p1.lon p2.lat p2.lon < 360) :
    0 ≤ relAngleOf p1.azimuth (b p1.lat p1.lon p2.lat p2.lon)
    ∧ relAngleOf p1.azimuth (b p1.lat p1.lon p2.lat p2.lon) < 360
    ∧ classifyStep b p1 p2 t
        = bucketAdd (quadrantSpec (relAngleOf p1.azimuth (b p1.lat p1.lon p2.lat p2.lon)))
            (markVisible t) := by
  have harg : 0 ≤ p1.azimuth - b p1.lat p1.lon p2.lat p2.lon + 360 := by linarith
  obtain ⟨hr0, hr1⟩ := jsMod_bounds _ harg
  have hra0 : 0 ≤ relAngleOf p1.azimuth (b p1.lat p1.lon p2.lat p2.lon) := hr0
  have hra1 : relAngleOf p1.azimuth (b p1.lat p1.lon p2.lat p2.lon) < 360 := hr1
  refine ⟨hra0, hra1, ?_⟩
  rw [classifyStep_of_nonneg b p1 p2 t halt]
  set a := relAngleOf p1.azimuth (b p1.lat p1.lon p2.lat p2.lon) with ha
  clear_value a
  by_cases hR : 45 < a ∧ a ≤ 135
  · simp [bucketStep, quadrantSpec, bucketAdd, hR]
  · by_cases hB : 135 < a ∧ a ≤ 225
    · have hL : ¬(225 < a ∧ a ≤ 315) := by rintro ⟨h, _⟩; linarith [hB.2]
      have hA : ¬(315 < a ∨ a ≤ 45) := by
        rintro (h | h)
        · linarith [hB.2]
        · linarith [hB.1]
      simp [bucketStep, quadrantSpec, bucketAdd, hR, hB, hL, hA]
    · by_cases hL : 225 < a ∧ a ≤ 315
      · have hA : ¬(315 < a ∨ a ≤ 45) := by
          rintro (h | h)
          · linarith [hL.2]
          · linarith [hL.1]
        simp [bucketStep, quadrantSpec, bucketAdd, hR, hB, hL, hA]
      · have hA : 315 < a ∨ a ≤ 45 := by
          by_contra hc
          push_neg at hc
          push_neg at hR hB hL
          have h1 : 135 < a := hR hc.2
          have h2 : 225 < a := hB h1
          have h3 : 315 < a := hL h2
          linarith [hc.1]
        simp [bucketStep, quadrantSpec, bucketAdd, hR, hB, hL, hA]

/-- Witness for C2: a visible interval with azimuth 90° and heading 0°
(relative angle 90°, bucketed Right). -/
theorem c2_quadrant_rule_witness :
    ((0 : ℚ) ≤ 5) ∧ ((0 : ℚ) ≤ 90) ∧ ((90 : ℚ) < 360)
    ∧ classifyStep (fun _ _ _ _ => 0) ⟨0, 0, 0, 5, 90⟩ ⟨1, 0, 1, 5, 90⟩ initTally
        = bucketAdd (quadrantSpec (relAngleOf 90 0)) (markVisible initTally) := by
  refine ⟨by norm_num, by norm_num, by norm_num, ?_⟩
  exact (c2_quadrant_rule (fun _ _ _ _ => 0) ⟨0, 0, 0, 5, 90⟩ ⟨1, 0, 1, 5, 90⟩ initTally
    (by norm_num) (by norm_num) (by norm_num) (by norm_num) (by norm_num)).2.2

/-- Claim C3 counterexample: the classifier buckets a relative angle of
exactly 45.0 as Ahead, not Right, and exactly 315.0 as Left, not Ahead —
refuting the claimed boundary assignment at both boundaries. -/
theorem c3_boundary_counterexample :
    (bucketStep (45 : ℚ) initTally).rightCount = 0
    ∧ bucketOf (45 : ℚ) ≠ "Right"
    ∧ (bucketStep (315 : ℚ) initTally).aheadCount = 0
    ∧ bucketOf (315 : ℚ) ≠ "Ahead" := by
  refine ⟨?_, ?_, ?_, ?_⟩ <;> norm_num [bucketStep, bucketOf, initTally] <;> decide

/-- Claim C3 (amended): a relative angle of exactly 45.0 is classified as
Ahead (not Right), and exactly 315.0 as Left (not Ahead), matching the
upper-edge-inclusive buckets of §4.4. -/
theorem c3_boundary_amended (t : SideTally) :
    bucketStep (45 : ℚ) t = { t with aheadCount := t.aheadCount + 1 }
    ∧ bucketStep (315 : ℚ) t = { t with leftCount := t.leftCount + 1 }
    ∧ bucketOf (45 : ℚ) = "Ahead" ∧ bucketOf (315 : ℚ) = "Left" := by
  refine ⟨?_, ?_, ?_, ?_⟩ <;> norm_num [bucketStep, bucketOf]

/-! ## Event detection -/

/-- Claim C4: the crossing-time policy — for a sunrise (resp. sunset)
crossing, an ephemeris time at the later sample's location lying within
[time[i], time[i+1]] is used as-is; otherwise the crossing time is
time[i] + |altitude[i]| / |altitude[i+1] − altitude[i]| · (time[i+1] − time[i]). -/
theorem c4_crossing_time_policy (sr ss : EphemTimes) (p0 p1 : SunPoint) :
    ((∀ e, sr p1.time p1.lat p1.lon = some e → p0.time ≤ e ∧ e ≤ p1.time →
        riseTime sr p0 p1 = e)
     ∧ (p0.altitude < 0 → 0 ≤ p1.altitude →
        (∀ e, sr p1.time p1.lat p1.lon = some e → ¬(p0.time ≤ e ∧ e ≤ p1.time)) →
        riseTime sr p0 p1
          = p0.time + |p0.altitude| / |p1.altitude - p0.altitude| * (p1.time - p0.time)))
    ∧ ((∀ e, ss p1.time p1.lat p1.lon = some e → p0.time ≤ e ∧ e ≤ p1.time →
        setTime ss p0 p1 = e)
     ∧ (0 ≤ p0.altitude → p1.altitude < 0 →
        (∀ e, ss p1.time p1.lat p1.lon = some e → ¬(p0.time ≤ e ∧ e ≤ p1.time)) →
        setTime ss p0 p1
          = p0.time + |p0.altitude| / |p1.altitude - p0.altitude| * (p1.time - p0.time))) := by
  constructor
  · constructor
    · intro e he hin
      unfold riseTime
      rw [he]
      simp [hin]
    · intro hneg hpos hout
      have habs : riseTime sr p0 p1 = linRise p0 p1 := by
        unfold riseTime
        cases heq : sr p1.time p1.lat p1.lon with
        | none => rfl
        | some e => simp [hout e heq]
      rw [habs]
      unfold linRise
      rw [abs_of_neg hneg, abs_of_pos (by linarith : 0 < p1.altitude - p0.altitude)]
  · constructor
    · intro e he hin
      unfold setTime
      rw [he]
      simp [hin]
    · intro hpos hneg hout
      have habs : setTime ss p0 p1 = linSet p0 p1 := by
        unfold setTime
        cases heq : ss p1.time p1.lat p1.lon with
        | none => rfl
        | some e => simp [hout e heq]
      rw [habs]
      unfold linSet
      rw [abs_of_nonneg hpos, abs_of_neg (by linarith : p1.altitude - p0.altitude < 0)]
      ring

/-- Witness for C4: altitudes [-5, +3] over a 10-minute bracket with no
ephemeris time yield a crossing at bracket start + (5/8)·10 minutes. -/
theorem c4_crossing_time_policy_witness :
    ((-5 : ℚ) < 0) ∧ ((0 : ℚ) ≤ 3)
    ∧ riseTime (fun _ _ _ => none) ⟨0, 0, 0, -5, 0⟩ ⟨0, 0, 10, 3, 0⟩
        = 0 + 5 / 8 * 10 := by
  refine ⟨by norm_num, by norm_num, ?_⟩
  have h := (c4_crossing_time_policy (fun _ _ _ => none) (fun _ _ _ => none)
      ⟨0, 0, 0, -5, 0⟩ ⟨0, 0, 10, 3, 0⟩).1.2 (by norm_num) (by norm_num)
      (fun e he => by simp at he)
  rw [h]
  norm_num

theorem detectAux_none (b : Bearing) (sr ss : EphemTimes) (p : SunPoint)
    (rest : List SunPoint) :
    detectAux b sr ss none (p :: rest) = detectAux b sr ss (some p) rest := rfl

theorem detectAux_some (b : Bearing) (sr ss : EphemTimes) (p0 p : SunPoint)
    (rest : List SunPoint) :
    detectAux b sr ss (some p0) (p :: rest)
      = pairEvents b sr ss p0 p rest ++ detectAux b sr ss (some p) rest := rfl

theorem pairEvents_kinds (b : Bearing) (sr ss : EphemTimes) (p0 p1 : SunPoint)
    (rest : List SunPoint) :
    (pairEvents b sr ss p0 p1 rest).map (fun e => e.kind)
      = (if p0.altitude < 0 ∧ 0 ≤ p1.altitude then [EventKind.sunrise]
         else if 0 ≤ p0.altitude ∧ p1.altitude < 0 then [EventKind.sunset]
         else []) := by
  unfold pairEvents
  by_cases h1 : p0.altitude < 0 ∧ 0 ≤ p1.altitude
  · have h2 : ¬(0 ≤ p0.altitude ∧ p1.altitude < 0) := by
      rintro ⟨h, _⟩
      linarith [h1.1]
    simp [h1, h2]
  · by_cases h2 : 0 ≤ p0.altitude ∧ p1.altitude < 0
    · simp [h1, h2]
    · simp [h1, h2]

theorem specKinds_cons (p0 p1 : SunPoint) (rest : List SunPoint) :
    specKinds (p0 :: p1 :: rest)
      = (if p0.altitude < 0 ∧ 0 ≤ p1.altitude then [EventKind.sunrise]
         else if 0 ≤ p0.altitude ∧ p1.altitude < 0 then [EventKind.sunset]
         else [])
        ++ specKinds (p1 :: rest) := rfl

theorem detectAux_kinds (b : Bearing) (sr ss : EphemTimes) :
    ∀ (rest : List SunPoint) (p0 : SunPoint),
      (detectAux b sr ss (some p0) rest).map (fun e => e.kind) = specKinds (p0 :: rest)
  | [], _ => rfl
  | p :: rest, p0 => by
    rw [detectAux_some, List.map_append, pairEvents_kinds,
      detectAux_kinds b sr ss rest p, specKinds_cons]

/-- Claim C5: scanning pairwise, the detector emits a sunrise for pair
(i, i+1) iff altitude[i] < 0 ≤ altitude[i+1], a sunset iff
altitude[i] ≥ 0 > altitude[i+1], and nothing otherwise: the kind sequence of
the emitted events is exactly the pairwise-determined `specKinds`. -/
theorem c5_event_detection_iff (b : Bearing) (sr ss : EphemTimes)
    (pts : List SunPoint) :
    (detectEvents b sr ss pts).map (fun e => e.kind) = specKinds pts := by
  unfold detectEvents
  cases pts with
  | nil => rfl
  | cons p rest => rw [detectAux_none, detectAux_kinds b sr ss rest p]

/-- Bearing function used by the C6 counterexample: 0° from latitude 0,
180° from anywhere else, so the two legs of the route have different headings. -/
def bSwitch : Bearing := fun la _ _ _ => if la = 0 then 0 else 180

/-- Sample sequence used by the C6 counterexample: a sunrise between the
first two samples, with a third sample giving the detector a forward leg. -/
def ptsC6 : List SunPoint := [⟨0, 0, 0, -5, 0⟩, ⟨1, 0, 10, 3, 90⟩, ⟨2, 0, 20, 3, 90⟩]

/-- Claim C6 counterexample: the detected sunrise between samples 0 and 1 is
labelled with the heading of the leg after the later sample (180°, giving
relative angle 270° = Left), not the heading between the bracketing samples
(0°, which the §4.4 rule would label Right, relative angle 90°). -/
theorem c6_label_counterexample :
    (detectEvents bSwitch (fun _ _ _ => none) (fun _ _ _ => none) ptsC6).map
        (fun e => e.position) = ["Left"]
    ∧ bSwitch 0 0 1 0 = 0
    ∧ bucketOf (relAngleOf 90 0) = "Right" := by
  refine ⟨?_, ?_, ?_⟩
  · norm_num [detectEvents, detectAux, pairEvents, eventHeading, bSwitch, ptsC6,
      bucketOf, relAngleOf, jsMod, jsTrunc, riseTime, linRise]
  · norm_num [bSwitch]
  · norm_num [bucketOf, relAngleOf, jsMod, jsTrunc]

/-- Claim C6 (amended): every event detected for the pair (p0, p1) takes its
position and azimuth from the later sample p1, and its relative-position
label from the quadrant rule applied with `eventHeading`: the heading from p1
toward the sample after it when one exists, and the heading between the
bracketing samples only when p1 is the final sample. -/
theorem c6_event_fields_amended (b : Bearing) (sr ss : EphemTimes)
    (p0 p1 : SunPoint) (rest : List SunPoint) (e : SunEvent)
    (he : e ∈ pairEvents b sr ss p0 p1 rest) :
    e.lat = p1.lat ∧ e.lon = p1.lon ∧ e.azimuth = p1.azimuth
    ∧ e.position = bucketOf (relAngleOf p1.azimuth (eventHeading b p0 p1 rest)) := by
  unfold pairEvents at he
  rcases List.mem_append.mp he with h | h
  · by_cases hc : p0.altitude < 0 ∧ 0 ≤ p1.altitude
    · rw [if_pos hc] at h
      simp only [List.mem_singleton] at h
      subst h
      exact ⟨rfl, rfl, rfl, rfl⟩
    · rw [if_neg hc] at h
      simp at h
  · by_cases hc : 0 ≤ p0.altitude ∧ p1.altitude < 0
    · rw [if_pos hc] at h
      simp only [List.mem_singleton] at h
      subst h
      exact ⟨rfl, rfl, rfl, rfl⟩
    · rw [if_neg hc] at h
      simp at h

/-- Witness for the amended C6 at the concrete counterexample input. -/
theorem c6_event_fields_amended_witness :
    (⟨EventKind.sunrise, 25/4, 1, 0, 90, "Left"⟩ : SunEvent).position
      = bucketOf (relAngleOf (90 : ℚ)
          (eventHeading bSwitch ⟨0, 0, 0, -5, 0⟩ ⟨1, 0, 10, 3, 90⟩ [⟨2, 0, 20, 3, 90⟩])) := by
  have hm : (⟨EventKind.sunrise, 25/4, 1, 0, 90, "Left"⟩ : SunEvent)
      ∈ pairEvents bSwitch (fun _ _ _ => none) (fun _ _ _ => none)
        ⟨0, 0, 0, -5, 0⟩ ⟨1, 0, 10, 3, 90⟩ [⟨2, 0, 20, 3, 90⟩] := by
    norm_num [pairEvents, eventHeading, bSwitch, bucketOf, relAngleOf, jsMod,
      jsTrunc, riseTime, linRise]
  exact (c6_event_fields_amended bSwitch (fun _ _ _ => none) (fun _ _ _ => none)
    ⟨0, 0, 0, -5, 0⟩ ⟨1, 0, 10, 3, 90⟩ [⟨2, 0, 20, 3, 90⟩] _ hm).2.2.2

/-! ## Route segmentation -/

theorem segmentLoop_nil (segs : List (List (ℚ × ℚ))) (cur : List (ℚ × ℚ)) :
    segmentLoop [] segs cur = if cur = [] then segs else segs ++ [cur] := rfl

theorem segmentLoop_cons_none (p : ℚ × ℚ) (rest : List (ℚ × ℚ))
    (segs : List (List (ℚ × ℚ))) (cur : List (ℚ × ℚ)) (h : cur.getLast? = none) :
    segmentLoop (p :: rest) segs cur = segmentLoop rest segs [p] := by
  simp only [segmentLoop, h]

theorem segmentLoop_cons_some (p : ℚ × ℚ) (rest : List (ℚ × ℚ))
    (segs : List (List (ℚ × ℚ))) (cur : List (ℚ × ℚ)) (prev : ℚ × ℚ)
    (h : cur.getLast? = some prev) :
    segmentLoop (p :: rest) segs cur
      = if 180 < |p.2 - prev.2| then segmentLoop rest (segs ++ [cur]) [p]
        else segmentLoop rest segs (cur ++ [p]) := by
  simp only [segmentLoop, h]

theorem segmentLoop_flatten :
    ∀ (pts : List (ℚ × ℚ)) (segs : List (List (ℚ × ℚ))) (cur : List (ℚ × ℚ)),
      (segmentLoop pts segs cur).flatten = segs.flatten ++ cur ++ pts
  | [], segs, cur => by
    rw [segmentLoop_nil]
    by_cases h : cur = []
    · simp [h]
    · simp [h]
  | p :: rest, segs, cur => by
    cases hcur : cur.getLast? with
    | none =>
      have hc : cur = [] := List.getLast?_eq_none_iff.mp hcur
      rw [segmentLoop_cons_none p rest segs cur hcur,
        segmentLoop_flatten rest segs [p], hc]
      simp
    | some prev =>
      rw [segmentLoop_cons_some p rest segs cur prev hcur]
      by_cases hd : 180 < |p.2 - prev.2|
      · rw [if_pos hd, segmentLoop_flatten rest (segs ++ [cur]) [p]]
        simp
      · rw [if_neg hd, segmentLoop_flatten rest segs (cur ++ [p])]
        simp

theorem segmentLoop_chain :
    ∀ (pts : List (ℚ × ℚ)) (segs : List (List (ℚ × ℚ))) (cur : List (ℚ × ℚ)),
      (∀ s ∈ segs, s.Chain' (fun a b => |b.2 - a.2| ≤ 180)) →
      cur.Chain' (fun a b => |b.2 - a.2| ≤ 180) →
      ∀ s ∈ segmentLoop pts segs cur, s.Chain' (fun a b => |b.2 - a.2| ≤ 180)
  | [], segs, cur, hsegs, hcur => by
    rw [segmentLoop_nil]
    by_cases h : cur = []
    · simpa [h] using hsegs
    · rw [if_neg h]
      intro s hs
      rcases List.mem_append.mp hs with h' | h'
      · exact hsegs s h'
      · simp only [List.mem_singleton] at h'
        subst h'
        exact hcur
  | p :: rest, segs, cur, hsegs, hcur => by
    cases hcur' : cur.getLast? with
    | none =>
      rw [segmentLoop_cons_none p rest segs cur hcur']
      exact segmentLoop_chain rest segs [p] hsegs (List.chain'_singleton _)
    | some prev =>
      rw [segmentLoop_cons_some p rest segs cur prev hcur']
      by_cases hd : 180 < |p.2 - prev.2|
      · rw [if_pos hd]
        refine segmentLoop_chain rest (segs ++ [cur]) [p] ?_ (List.chain'_singleton _)
        intro s hs
        rcases List.mem_append.mp hs with h' | h'
        · exact hsegs s h'
        · simp only [List.mem_singleton] at h'
          subst h'
          exact hcur
      · rw [if_neg hd]
        refine segmentLoop_chain rest segs (cur ++ [p]) hsegs ?_
        rw [List.chain'_append]
        refine ⟨hcur, List.chain'_singleton _, ?_⟩
        intro x hx y hy
        simp only [List.head?_cons, Option.mem_some_iff] at hy
        rw [hcur'] at hx
        simp only [Option.mem_some_iff] at hx
        subst hx
        subst hy
        exact not_lt.mp hd

theorem segmentLoop_gaps :
    ∀ (pts : List (ℚ × ℚ)) (segs : List (List (ℚ × ℚ))) (cur : List (ℚ × ℚ)),
      (cur = [] → segs = []) →
      List.Chain' Gap (segs ++ [cur]) →
      List.Chain' Gap (segmentLoop pts segs cur)
  | [], segs, cur, hinit, hchain => by
    rw [segmentLoop_nil]
    by_cases h : cur = []
    · rw [if_pos h, hinit h]
      exact List.chain'_nil
    · rw [if_neg h]
      exact hchain
  | p :: rest, segs, cur, hinit, hchain => by
    cases hcur : cur.getLast? with
    | none =>
      have hc : cur = [] := List.getLast?_eq_none_iff.mp hcur
      rw [segmentLoop_cons_none p rest segs cur hcur]
      refine segmentLoop_gaps rest segs [p] (by simp) ?_
      rw [hinit hc]
      exact List.chain'_singleton _
    | some prev =>
      have hne : cur ≠ [] := by
        intro hc
        rw [hc] at hcur
        simp at hcur
      rw [segmentLoop_cons_some p rest segs cur prev hcur]
      by_cases hd : 180 < |p.2 - prev.2|
      · rw [if_pos hd]
        refine segmentLoop_gaps rest (segs ++ [cur]) [p] (by simp) ?_
        rw [List.chain'_append]
        refine ⟨hchain, List.chain'_singleton _, ?_⟩
        intro x hx y hy
        rw [List.getLast?_concat _] at hx
        simp only [Option.mem_some_iff] at hx
        simp only [List.head?_cons, Option.mem_some_iff] at hy
        subst hx
        subst hy
        intro a ha bb hb
        rw [hcur] at ha
        simp only [Option.mem_some_iff] at ha
        simp only [List.head?_cons, Option.mem_some_iff] at hb
        subst ha
        subst hb
        exact hd
      · rw [if_neg hd]
        refine segmentLoop_gaps rest segs (cur ++ [p]) (by simp) ?_
        rw [List.chain'_append] at hchain ⊢
        obtain ⟨hsegs, _, hb⟩ := hchain
        refine ⟨hsegs, List.chain'_singleton _, ?_⟩
        intro x hx y hy
        simp only [List.head?_cons, Option.mem_some_iff] at hy
        subst hy
        intro a ha bb hbb
        rw [List.head?_append_of_ne_nil _ hne] at hbb
        exact hb x hx cur (by simp) a ha bb hbb

/-- Claim C8: route segmentation starts a new segment exactly at consecutive
points whose absolute longitude difference exceeds 180°: concatenating all
segments reproduces the original point sequence, no segment contains an
internal consecutive-point longitude delta exceeding 180°, and adjacent
segments are separated by a longitude jump exceeding 180°. -/
theorem c8_segmentation (pts : List (ℚ × ℚ)) :
    (segmentRoute pts).flatten = pts
    ∧ (∀ s ∈ segmentRoute pts, s.Chain' (fun a b => |b.2 - a.2| ≤ 180))
    ∧ List.Chain' Gap (segmentRoute pts) := by
  refine ⟨?_, ?_, ?_⟩
  · have h := segmentLoop_flatten pts [] []
    simpa [segmentRoute] using h
  · exact segmentLoop_chain pts [] [] (by simp) List.chain'_nil
  · refine segmentLoop_gaps pts [] [] (fun _ => rfl) ?_
    exact List.chain'_singleton _

/-! ## Solar sampler -/

/-- Claim C9: for positive duration and interval, the sample sequence ends
with a sample at fraction = 1 exactly whose timestamp is
departureUTC + durationHours, even when durationHours·60 is not an exact
multiple of intervalMinutes (the partial last step is never dropped). -/
theorem c9_last_sample (gc : ℚ → ℚ × ℚ) (dep dur ivl : ℚ)
    (hdur : 0 < dur) (hivl : 0 < ivl) :
    ∃ s : RouteSample, (sampleRoute gc dep dur ivl).getLast? = some s
      ∧ s.fraction = 1 ∧ s.time = dep + dur := by
  unfold sampleRoute
  have htot : 0 < dur * 60 := by positivity
  have hrange : List.range (sampleCount dur ivl + 1)
      = List.range (sampleCount dur ivl) ++ [sampleCount dur ivl] := by
    simp [List.range_succ]
  rw [hrange, List.map_append, List.map_singleton, List.getLast?_concat _]
  have hceil : 0 < ⌈dur * 60 / ivl⌉ := by
    rw [Int.ceil_pos]
    positivity
  have hcast : ((sampleCount dur ivl : ℕ) : ℚ) = ((⌈dur * 60 / ivl⌉ : ℤ) : ℚ) := by
    unfold sampleCount
    exact_mod_cast Int.toNat_of_nonneg hceil.le
  have hge : dur * 60 ≤ (sampleCount dur ivl : ℚ) * ivl := by
    rw [hcast]
    have hle : dur * 60 / ivl ≤ (⌈dur * 60 / ivl⌉ : ℚ) := Int.le_ceil _
    calc dur * 60 = dur * 60 / ivl * ivl := by field_simp
      _ ≤ (⌈dur * 60 / ivl⌉ : ℚ) * ivl := by
          exact mul_le_mul_of_nonneg_right hle hivl.le
  have hfrac : sampleFraction dur ivl (sampleCount dur ivl) = 1 := by
    unfold sampleFraction
    refine min_eq_right ?_
    rw [le_div_iff₀ htot]
    linarith
  exact ⟨_, rfl, by simp [hfrac], by simp [hfrac]⟩

/-- Witness for C9 with a duration–interval pair that is not an exact
multiple: 0.25 h = 15 min sampled at 10-minute steps. -/
theorem c9_last_sample_witness :
    ((0 : ℚ) < 1/4) ∧ ((0 : ℚ) < 10)
    ∧ ∃ s : RouteSample,
        (sampleRoute (fun _ => (0, 0)) 0 (1/4) 10).getLast? = some s
        ∧ s.fraction = 1 ∧ s.time = 0 + 1/4 :=
  ⟨by norm_num, by norm_num,
    c9_last_sample (fun _ => (0, 0)) 0 (1/4) 10 (by norm_num) (by norm_num)⟩

end HelioRoute
